import Mathlib

/- Verification of the page-selection and document-assembly core of PDF Mixer Pro
   (src/PDF_Mixer_Pro_Alex_Dambu_v1.2_nometa.py; the v1 file contributes the old
   page-range parser).  Python strings are modelled as lists of characters; the
   builtins str.strip, str.split, int() (restricted to ASCII input) and range()
   are given explicit models below. -/

namespace PDFMixer

/-- Model of Python str.strip(): drop whitespace on both ends. -/
def pyStrip (cs : List Char) : List Char :=
  ((cs.dropWhile Char.isWhitespace).reverse.dropWhile Char.isWhitespace).reverse

/-- Model of Python s.split(","): split at every comma, keeping empty pieces. -/
def splitOnComma : List Char → List (List Char)
  | [] => [[]]
  | c :: rest =>
    if c = ',' then [] :: splitOnComma rest
    else
      match splitOnComma rest with
      | [] => [[c]]
      | p :: ps => (c :: p) :: ps

/-- Model of Python part.split("-", 1) guarded by the `"-" in part` test:
    split at the first hyphen when there is one. -/
def splitFirstHyphen : List Char → Option (List Char × List Char)
  | [] => none
  | c :: rest =>
    if c = '-' then some ([], rest)
    else
      match splitFirstHyphen rest with
      | none => none
      | some (a, b) => some (c :: a, b)

/-- Digit run as accepted by Python int() on ASCII input: single underscores
    are allowed between digits (never leading, trailing or doubled). -/
def pyDigitsGo (acc : Nat) : List Char → Option Nat
  | [] => some acc
  | '_' :: c :: rest =>
    if c.isDigit then pyDigitsGo (acc * 10 + (c.toNat - 48)) rest else none
  | c :: rest =>
    if c.isDigit then pyDigitsGo (acc * 10 + (c.toNat - 48)) rest else none

/-- Nonempty digit run: first character must be a digit. -/
def pyDigits : List Char → Option Nat
  | [] => none
  | c :: rest => if c.isDigit then pyDigitsGo (c.toNat - 48) rest else none

/-- Model of Python int(s) for ASCII input: strip whitespace, then an optional
    sign directly followed by digits; anything else raises ValueError (none). -/
def pyInt (cs : List Char) : Option Int :=
  match pyStrip cs with
  | '+' :: rest => (pyDigits rest).map (fun n => (n : Int))
  | '-' :: rest => (pyDigits rest).map (fun n => -(n : Int))
  | rest => (pyDigits rest).map (fun n => (n : Int))

/-- Model of range(start, stop + step, step) with step = 1 if start ≤ stop and
    step = -1 otherwise, as in parse_page_ranges: the inclusive run of values
    start, start ± 1, …, stop. -/
def rangeInc (start stop : Int) : List Int :=
  if start ≤ stop then (List.range (stop - start + 1).toNat).map (fun (k : Nat) => start + (k : Int))
  else (List.range (start - stop + 1).toNat).map (fun (k : Nat) => start - (k : Int))

/-- Body of the per-token loop of parse_page_ranges (v1.2 source, lines
    131-148): the zero-based indices one stripped token appends. -/
def collectPart (total_pages : Nat) (part : List Char) : List Int :=
  match splitFirstHyphen part with
  | some (a, b) =>
    match pyInt a, pyInt b with
    | some s, some e =>
      ((rangeInc s e).filter (fun v => decide (1 ≤ v ∧ v ≤ (total_pages : Int)))).map
        (fun v => v - 1)
    | _, _ => []
  | none =>
    match pyInt part with
    | some v => if 1 ≤ v ∧ v ≤ (total_pages : Int) then [v - 1] else []
    | none => []

/-- The dedup-keep-order pass of parse_page_ranges (v1.2 source, lines
    150-153); seen is the set of already-emitted indices. -/
def dedupGo (seen : List Int) : List Int → List Int
  | [] => []
  | i :: rest => if i ∈ seen then dedupGo seen rest else i :: dedupGo (i :: seen) rest

/-- parse_page_ranges of v1.2 (src/PDF_Mixer_Pro_Alex_Dambu_v1.2_nometa.py,
    lines 127-154). -/
def parse_page_ranges (ranges_str : String) (total_pages : Nat) : List Int :=
  if pyStrip ranges_str.data = [] then []
  else dedupGo [] (((splitOnComma ranges_str.data).map pyStrip).flatMap (collectPart total_pages))

/-- Body of the per-token loop of the old parser
    (src/PDF_Mixer_Pro_Alex_Dambu_v1_nometa[OLD].py, lines 99-116); the source
    text is character-identical to the v1.2 loop body. -/
def collectPartOld (total_pages : Nat) (part : List Char) : List Int :=
  match splitFirstHyphen part with
  | some (a, b) =>
    match pyInt a, pyInt b with
    | some s, some e =>
      ((rangeInc s e).filter (fun v => decide (1 ≤ v ∧ v ≤ (total_pages : Int)))).map
        (fun v => v - 1)
    | _, _ => []
  | none =>
    match pyInt part with
    | some v => if 1 ≤ v ∧ v ≤ (total_pages : Int) then [v - 1] else []
    | none => []

/-- Dedup-keep-order pass of the old parser (v1 source, lines 118-121). -/
def dedupGoOld (seen : List Int) : List Int → List Int
  | [] => []
  | i :: rest => if i ∈ seen then dedupGoOld seen rest else i :: dedupGoOld (i :: seen) rest

/-- parse_page_ranges of the old version
    (src/PDF_Mixer_Pro_Alex_Dambu_v1_nometa[OLD].py, lines 95-122). -/
def parse_page_ranges_old (ranges_str : String) (total_pages : Nat) : List Int :=
  if pyStrip ranges_str.data = [] then []
  else dedupGoOld [] (((splitOnComma ranges_str.data).map pyStrip).flatMap (collectPartOld total_pages))

/-- §4.1, spec side: the ascending 1-based run a, a+1, …, b. -/
def specAscRange (a b : Int) : List Int :=
  (List.range (b - a + 1).toNat).map (fun (k : Nat) => a + (k : Int))

/-- §4.1 reference semantics of one token, written from the spec's words: for
    a pair a-b the values are generated ascending when a ≤ b and descending
    when a > b; a token failing integer parsing is silently skipped; each
    surviving 1-based value v in [1, total] contributes the index v - 1. -/
def specTokenIndices (total : Nat) (tok : List Char) : List Int :=
  match splitFirstHyphen tok with
  | some (a, b) =>
    match pyInt a, pyInt b with
    | some s, some e =>
      ((if s ≤ e then specAscRange s e else (specAscRange e s).reverse).filter
          (fun v => decide (1 ≤ v ∧ v ≤ (total : Int)))).map (fun v => v - 1)
    | _, _ => []
  | none =>
    match pyInt tok with
    | some v => if 1 ≤ v ∧ v ≤ (total : Int) then [v - 1] else []
    | none => []

/-- §4.1 deduplication, spec side: keep the first occurrence of each index,
    preserving first-seen order. -/
def specDedup (l : List Int) : List Int :=
  l.foldl (fun acc i => if i ∈ acc then acc else acc ++ [i]) []

/-- The §4.1 reference parser assembled from the spec's words. -/
def parseRangesSpec (s : String) (total : Nat) : List Int :=
  if pyStrip s.data = [] then []
  else specDedup (((splitOnComma s.data).map pyStrip).flatMap (specTokenIndices total))

/-- A page reference in the interleave output: the zero-based index of a page
    of document A or of document B (reader_a.pages[i] / reader_b.pages[i]). -/
inductive PageRef
  | A (i : Nat)
  | B (i : Nat)
deriving DecidableEq

/-- The 1-based page number a reference denotes. -/
def PageRef.pageNumber : PageRef → Nat
  | A i => i + 1
  | B i => i + 1

/-- The while-loop of _do_interleave mode "alternate" (v1.2 source, lines
    1289-1294): pa and pb are the page counts, ia and ib the zero-based
    cursors into A and B. -/
def alternateLoop (pa pb ia ib : Nat) : List PageRef :=
  if _h : ia < pa ∨ ib < pb then
    (if ia < pa then [PageRef.A ia] else []) ++
      (if ib < pb then [PageRef.B ib] else []) ++
        alternateLoop pa pb (if ia < pa then ia + 1 else ia) (if ib < pb then ib + 1 else ib)
  else []
termination_by pa - ia + (pb - ib)
decreasing_by
  rcases _h with h | h <;> by_cases h1 : ia < pa <;> by_cases h2 : ib < pb <;>
    simp [h1, h2] <;> omega

/-- is_odd of _do_interleave (v1.2 source, lines 1284-1285): parity of a
    1-based page number. -/
def is_odd (i1 : Nat) : Bool := i1 % 2 == 1

/-- The page-selection logic of _do_interleave (v1.2 source, lines 1274-1317):
    given the two page counts and the 1-based start page, the ordered page
    references the writer receives; none models the "Mod necunoscut" error
    path for an unknown mode.  Python's negative indexing is not modelled:
    every call site has start_from ≥ 1 (the dialog spinbox starts at 1). -/
def doInterleave (mode : String) (pa pb start_from : Nat) : Option (List PageRef) :=
  if mode = "alternate" then
    some (alternateLoop pa pb (start_from - 1) (start_from - 1))
  else if mode = "a_odd_b_even" then
    some ((List.range' start_from (max pa pb + 1 - start_from)).flatMap (fun i =>
      (if i ≤ pa ∧ is_odd i then [PageRef.A (i - 1)] else []) ++
        (if i ≤ pb ∧ ¬ is_odd i then [PageRef.B (i - 1)] else [])))
  else if mode = "a_even_b_odd" then
    some ((List.range' start_from (max pa pb + 1 - start_from)).flatMap (fun i =>
      (if i ≤ pa ∧ ¬ is_odd i then [PageRef.A (i - 1)] else []) ++
        (if i ≤ pb ∧ is_odd i then [PageRef.B (i - 1)] else [])))
  else if mode = "a_odd" then
    some ((List.range' start_from (pa + 1 - start_from)).flatMap (fun i =>
      if is_odd i then [PageRef.A (i - 1)] else []))
  else if mode = "b_even" then
    some ((List.range' start_from (pb + 1 - start_from)).flatMap (fun i =>
      if ¬ is_odd i then [PageRef.B (i - 1)] else []))
  else none

/-- §4.3 alternate, spec side: walk two page lists in lockstep, appending the
    next page of A (if any remain) then the next page of B (if any remain);
    the shorter list simply stops contributing. -/
def lockstep : List PageRef → List PageRef → List PageRef
  | [], ys => ys
  | x :: xs, [] => x :: xs
  | x :: xs, y :: ys => x :: y :: lockstep xs ys

/-- An opaque page handle: a content identifier plus the page's rotation
    state (the rotate operation adjusts rotation before a page is appended;
    copying a page keeps both). -/
structure Page where
  content : Nat
  rotation : Int
deriving DecidableEq

/-- A PDF document as the core sees it: ordered pages, the document-level
    metadata entries (the /Info dictionary) and an optional XMP metadata
    stream.  pypdf's PdfReader/PdfWriter are external collaborators modelled
    on this structure. -/
structure PdfFileM where
  pages : List Page
  info : List (String × String)
  xmp : Option String
deriving DecidableEq

/-- Model of PdfWriter(): a fresh writer with no pages, no metadata entries
    and no XMP stream. -/
def writerNew : PdfFileM := ⟨[], [], none⟩

/-- Model of writer.add_page(p): append one page handle unchanged. -/
def writerAddPage (w : PdfFileM) (p : Page) : PdfFileM :=
  { w with pages := w.pages ++ [p] }

/-- Model of writer.add_metadata(d): merge the entries of d into the writer's
    /Info dictionary, entries of d overriding existing keys. -/
def writerAddMetadata (w : PdfFileM) (d : List (String × String)) : PdfFileM :=
  { w with info := (w.info.filter (fun kv => !(d.any (fun kv2 => kv2.1 == kv.1)))) ++ d }

/-- Model of writer.xmp_metadata = None. -/
def writerClearXmp (w : PdfFileM) : PdfFileM := { w with xmp := none }

/-- sanitize_pdf_no_metadata (v1.2 source, lines 215-235): re-add every page
    of the source to a fresh writer, add an empty metadata dictionary and
    clear the XMP stream (in the source each clearing call is wrapped in
    try/except as best-effort; both succeed in this model). -/
def sanitize_pdf_no_metadata (src : PdfFileM) : PdfFileM :=
  writerClearXmp (writerAddMetadata (src.pages.foldl writerAddPage writerNew) [])

/-- File contents as the assembly pipeline distinguishes them: a readable PDF
    with its pages and a flag recording whether metadata survives, or an
    unreadable (partially written) file. -/
inductive FileData
  | pdfFile (pages : List Page) (hasMeta : Bool)
  | broken
deriving DecidableEq

/-- A file system: an association of paths to file contents. -/
abbrev FS := List (String × FileData)

/-- Look a path up. -/
def fsGet : FS → String → Option FileData
  | [], _ => none
  | (q, d) :: rest, p => if p = q then some d else fsGet rest p

/-- Delete a path (os.remove, modelled as succeeding). -/
def fsDel (fs : FS) (p : String) : FS := fs.filter (fun e => e.1 != p)

/-- Write a path. -/
def fsSet (fs : FS) (p : String) (d : FileData) : FS := (p, d) :: fsDel fs p

/-- Model of os.replace(src, dst): move the file at src onto dst, overwriting
    dst (the modelled call sites only invoke it when src exists). -/
def os_replace (fs : FS) (src dst : String) : FS :=
  match fsGet fs src with
  | some d => fsSet (fsDel fs src) dst d
  | none => fs

/-- Possible outcomes of one sanitize_pdf_no_metadata call over files
    (§4.4/§7(e)): success, an exception before the output file is opened
    (e.g. reading the source fails), or an exception mid-write leaving a
    partial output file. -/
inductive SanOutcome
  | ok
  | failBeforeWrite
  | failDuringWrite
deriving DecidableEq

/-- sanitize_pdf_no_metadata as a file operation: the new file system and
    whether an exception was raised.  On success the destination holds the
    source's pages, metadata-free. -/
def sanitizeFileRun (fs : FS) (src dst : String) (oc : SanOutcome) : FS × Bool :=
  match oc with
  | .ok =>
    match fsGet fs src with
    | some (.pdfFile pg _) => (fsSet fs dst (.pdfFile pg false), false)
    | _ => (fs, true)
  | .failBeforeWrite => (fs, true)
  | .failDuringWrite => (fsSet fs dst .broken, true)

/-- The sanitize second pass shared verbatim by every assembly operation
    (merge_serial lines 1202-1213, and the identical blocks of
    _do_interleave, extract_pages_dialog, delete_pages_dialog, _do_rotate,
    reverse_pages_dialog and split_every_dialog): move the freshly written
    output aside to the working path, sanitize it back onto the output path,
    remove the working file; on any exception move the pre-sanitized file
    back onto the output path. -/
def sanitizeSecondPass (fs : FS) (outP tmpP : String) (oc : SanOutcome) : FS :=
  let fs1 := os_replace fs outP tmpP
  let r := sanitizeFileRun fs1 tmpP outP oc
  if r.2 then
    if (fsGet r.1 tmpP).isSome then os_replace r.1 tmpP outP else r.1
  else
    fsDel r.1 tmpP

/-- Possible outcomes of one conversion item: success, the office conversion
    raises, or the sanitize pass raises after the temporary file was written. -/
inductive ConvOutcome
  | ok
  | convFail
  | saniFail
deriving DecidableEq

/-- One item of the convert_ppt_dialog loop (v1.2 source, lines 1022-1032;
    convert_word_dialog and the images dialog share this single-temp shape):
    convert the input to tmp_pdf (written with the converter's metadata),
    sanitize tmp_pdf to final_pdf, then remove tmp_pdf.  The Bool records
    whether an exception escaped to the dialog's outer handler (lines
    1040-1041), which shows an error box and performs no file cleanup. -/
def convertPptItem (fs : FS) (pg : List Page) (tmpP finalP : String)
    (oc : ConvOutcome) : FS × Bool :=
  match oc with
  | .convFail => (fs, true)
  | .saniFail =>
    ((sanitizeFileRun (fsSet fs tmpP (.pdfFile pg true)) tmpP finalP .failBeforeWrite).1, true)
  | .ok =>
    let r := sanitizeFileRun (fsSet fs tmpP (.pdfFile pg true)) tmpP finalP .ok
    (fsDel r.1 tmpP, false)

/-- One item of the convert_excel_dialog loop (v1.2 source, lines 1068-1087):
    convert the input to tmp_pdf; with force_landscape the collaborator
    auto-rotate pass (rot, the page transform of
    auto_rotate_pdf_pages_to_landscape) rewrites tmp_pdf to mid_pdf and
    mid_pdf is sanitized to final_pdf, otherwise tmp_pdf is sanitized
    directly; then both tmp_pdf and mid_pdf are removed when present.  The
    Bool records whether an exception escaped to the outer handler (lines
    1095-1096), which performs no file cleanup. -/
def convertExcelItem (fs : FS) (pg : List Page) (rot : List Page → List Page)
    (tmpP midP finalP : String) (fl : Bool) (oc : ConvOutcome) : FS × Bool :=
  match oc with
  | .convFail => (fs, true)
  | .saniFail =>
    let fs1 := fsSet fs tmpP (.pdfFile pg true)
    match fl with
    | true =>
      let fs2 := fsSet fs1 midP (.pdfFile (rot pg) true)
      ((sanitizeFileRun fs2 midP finalP .failBeforeWrite).1, true)
    | false => ((sanitizeFileRun fs1 tmpP finalP .failBeforeWrite).1, true)
  | .ok =>
    let fs1 := fsSet fs tmpP (.pdfFile pg true)
    match fl with
    | true =>
      let fs2 := fsSet fs1 midP (.pdfFile (rot pg) true)
      let r := sanitizeFileRun fs2 midP finalP .ok
      (fsDel (fsDel r.1 tmpP) midP, false)
    | false =>
      let r := sanitizeFileRun fs1 tmpP finalP .ok
      (fsDel (fsDel r.1 tmpP) midP, false)

/-- extract_pages_dialog selection logic (v1.2 source, lines 1353-1359): none
    models the warning "Nu s-a specificat niciun interval valid" and the
    abort before an output path is chosen or anything is written; some idxs
    is the ordered index list whose pages are then written. -/
def extractSelection (total : Nat) (ranges : String) : Option (List Int) :=
  if parse_page_ranges ranges total = [] then none
  else some (parse_page_ranges ranges total)

/-- delete_pages_dialog logic (v1.2 source, lines 1404-1424): none models the
    warn-and-abort on an empty parsed selection; some l is the list of
    zero-based indices of the pages kept and written (the write loop keeps
    every i not in to_delete). -/
def deleteKept (total : Nat) (ranges : String) : Option (List Nat) :=
  if parse_page_ranges ranges total = [] then none
  else some ((List.range total).filter
    (fun i => decide (((i : Int)) ∉ parse_page_ranges ranges total)))

example : parse_page_ranges "1-3,5,10" 10 = [0, 1, 2, 4, 9] := by decide

example : parse_page_ranges "5-3" 10 = [4, 3, 2] := by decide

example : parse_page_ranges "3,1-3" 5 = [2, 0, 1] := by decide

example : parse_page_ranges "" 5 = [] := by decide

example : parse_page_ranges "99" 5 = [] := by decide

example : parse_page_ranges "  2 , x, 4-x, 1 - 3 " 5 = [1, 0, 2] := by decide

lemma rangeInc_eq_spec (s e : Int) :
    rangeInc s e = if s ≤ e then specAscRange s e else (specAscRange e s).reverse := by
  unfold rangeInc specAscRange
  by_cases h : s ≤ e
  · rw [if_pos h, if_pos h]
  · rw [if_neg h, if_neg h]
    conv_rhs => rw [← List.map_reverse, List.range_eq_range', List.reverse_range', List.map_map]
    refine List.map_congr_left ?_
    intro i hi
    rw [List.mem_range] at hi
    simp only [Function.comp_apply]
    omega

lemma collectPart_eq_spec (total : Nat) (part : List Char) :
    collectPart total part = specTokenIndices total part := by
  cases hs : splitFirstHyphen part with
  | none =>
    cases hv : pyInt part with
    | none => simp [collectPart, specTokenIndices, hs, hv]
    | some v => simp [collectPart, specTokenIndices, hs, hv]
  | some ab =>
    obtain ⟨a, b⟩ := ab
    cases ha : pyInt a with
    | none => simp [collectPart, specTokenIndices, hs, ha]
    | some s =>
      cases hb : pyInt b with
      | none => simp [collectPart, specTokenIndices, hs, ha, hb]
      | some e => simp [collectPart, specTokenIndices, hs, ha, hb, rangeInc_eq_spec]

lemma dedupGo_eq_foldl : ∀ (l acc seen : List Int), (∀ x, x ∈ seen ↔ x ∈ acc) →
    acc ++ dedupGo seen l = l.foldl (fun acc i => if i ∈ acc then acc else acc ++ [i]) acc
  | [], acc, seen, _ => by simp [dedupGo]
  | i :: rest, acc, seen, h => by
    simp only [dedupGo, List.foldl_cons]
    by_cases hi : i ∈ seen
    · rw [if_pos hi, if_pos ((h i).1 hi)]
      exact dedupGo_eq_foldl rest acc seen h
    · rw [if_neg hi, if_neg (fun hm => hi ((h i).2 hm))]
      rw [show acc ++ i :: dedupGo (i :: seen) rest
            = (acc ++ [i]) ++ dedupGo (i :: seen) rest by simp]
      refine dedupGo_eq_foldl rest (acc ++ [i]) (i :: seen) ?_
      intro x
      simp only [List.mem_cons, List.mem_append, List.mem_singleton, h x]
      tauto

lemma dedupGo_eq_specDedup (l : List Int) : dedupGo [] l = specDedup l := by
  have h := dedupGo_eq_foldl l [] [] (by simp)
  simpa [specDedup] using h

/-- C1: parse_page_ranges implements the §4.1 reference semantics — the
    expression is split on commas; a token a-b generates the values a..b
    ascending when a ≤ b and descending when a > b; each surviving 1-based
    value v in [1, total_pages] contributes the zero-based index v - 1; the
    result is deduplicated preserving first-seen order — and the three quoted
    test vectors hold. -/
theorem parse_page_ranges_matches_reference_semantics :
    (∀ (s : String) (total : Nat), parse_page_ranges s total = parseRangesSpec s total)
    ∧ parse_page_ranges "1-3,5,10" 10 = [0, 1, 2, 4, 9]
    ∧ parse_page_ranges "5-3" 10 = [4, 3, 2]
    ∧ parse_page_ranges "3,1-3" 5 = [2, 0, 1] := by
  refine ⟨fun s total => ?_, by decide, by decide, by decide⟩
  by_cases h : pyStrip s.data = []
  · simp [parse_page_ranges, parseRangesSpec, h]
  · simp only [parse_page_ranges, parseRangesSpec, if_neg h]
    rw [show collectPart total = specTokenIndices total from
        funext (collectPart_eq_spec total), dedupGo_eq_specDedup]

lemma mem_collectPart (total : Nat) (part : List Char) (i : Int)
    (h : i ∈ collectPart total part) : 0 ≤ i ∧ i < (total : Int) := by
  cases hs : splitFirstHyphen part with
  | none =>
    cases hv : pyInt part with
    | none => simp [collectPart, hs, hv] at h
    | some v =>
      simp only [collectPart, hs, hv] at h
      by_cases hb : 1 ≤ v ∧ v ≤ (total : Int)
      · rw [if_pos hb] at h
        have hi : i = v - 1 := List.mem_singleton.mp h
        omega
      · rw [if_neg hb] at h
        simp at h
  | some ab =>
    obtain ⟨a, b⟩ := ab
    cases ha : pyInt a with
    | none => simp [collectPart, hs, ha] at h
    | some s =>
      cases hb2 : pyInt b with
      | none => simp [collectPart, hs, ha, hb2] at h
      | some e =>
        simp only [collectPart, hs, ha, hb2, List.mem_map, List.mem_filter,
          decide_eq_true_eq] at h
        obtain ⟨v, ⟨_, hv⟩, rfl⟩ := h
        omega

lemma mem_dedupGo : ∀ (l seen : List Int) (i : Int), i ∈ dedupGo seen l → i ∈ l
  | [], _, _ => by simp [dedupGo]
  | j :: rest, seen, i => by
    simp only [dedupGo]
    split
    · intro h
      exact List.mem_cons_of_mem j (mem_dedupGo rest seen i h)
    · intro h
      rcases List.mem_cons.mp h with h | h
      · exact h ▸ List.mem_cons_self j rest
      · exact List.mem_cons_of_mem j (mem_dedupGo rest (j :: seen) i h)

lemma dedupGo_invariant : ∀ (l seen : List Int),
    (∀ i ∈ dedupGo seen l, i ∉ seen) ∧ (dedupGo seen l).Nodup
  | [], seen => by simp [dedupGo]
  | j :: rest, seen => by
    simp only [dedupGo]
    split
    · exact dedupGo_invariant rest seen
    · rename_i hj
      obtain ⟨h1, h2⟩ := dedupGo_invariant rest (j :: seen)
      refine ⟨?_, ?_⟩
      · intro i hi
        rcases List.mem_cons.mp hi with rfl | hi
        · exact hj
        · exact fun hs => h1 i hi (List.mem_cons_of_mem j hs)
      · exact List.nodup_cons.mpr ⟨fun hm => h1 j hm (List.mem_cons_self j seen), h2⟩

/-- C9: for every input string and page count, parse_page_ranges (a total
    function: malformed tokens are skipped, not fatal) returns a duplicate-free
    list whose every index i satisfies 0 ≤ i < total_pages. -/
theorem parse_page_ranges_safe (s : String) (total : Nat) :
    (parse_page_ranges s total).Nodup ∧
      ∀ i ∈ parse_page_ranges s total, 0 ≤ i ∧ i < (total : Int) := by
  unfold parse_page_ranges
  split
  · simp
  · refine ⟨(dedupGo_invariant _ _).2, fun i hi => ?_⟩
    obtain ⟨part, _, hpart⟩ := List.mem_flatMap.mp (mem_dedupGo _ _ _ hi)
    exact mem_collectPart _ _ _ hpart

/-- Witness for C9 at the concrete call parse_page_ranges "2,1" 5 and the
    concrete member index 1. -/
theorem parse_page_ranges_safe_witness :
    (parse_page_ranges "2,1" 5).Nodup ∧ ((0 : Int) ≤ 1 ∧ (1 : Int) < ((5 : Nat) : Int)) :=
  ⟨(parse_page_ranges_safe "2,1" 5).1, (parse_page_ranges_safe "2,1" 5).2 1 (by decide)⟩

lemma collectPart_eq_old (total : Nat) (part : List Char) :
    collectPart total part = collectPartOld total part := by
  cases hs : splitFirstHyphen part with
  | none =>
    cases hv : pyInt part with
    | none => simp [collectPart, collectPartOld, hs, hv]
    | some v => simp [collectPart, collectPartOld, hs, hv]
  | some ab =>
    obtain ⟨a, b⟩ := ab
    cases ha : pyInt a with
    | none => simp [collectPart, collectPartOld, hs, ha]
    | some s =>
      cases hb : pyInt b with
      | none => simp [collectPart, collectPartOld, hs, ha, hb]
      | some e => simp [collectPart, collectPartOld, hs, ha, hb]

lemma dedupGo_eq_old : ∀ (seen l : List Int), dedupGo seen l = dedupGoOld seen l
  | _, [] => rfl
  | seen, i :: rest => by
    simp only [dedupGo, dedupGoOld]
    by_cases hi : i ∈ seen
    · rw [if_pos hi, if_pos hi]
      exact dedupGo_eq_old seen rest
    · rw [if_neg hi, if_neg hi, dedupGo_eq_old (i :: seen) rest]

/-- C10: the page-range parser of the old version and of v1.2 agree on every
    input (the two source functions are textually identical). -/
theorem parse_page_ranges_old_eq_new (s : String) (total : Nat) :
    parse_page_ranges s total = parse_page_ranges_old s total := by
  by_cases h : pyStrip s.data = []
  · simp [parse_page_ranges, parse_page_ranges_old, h]
  · simp only [parse_page_ranges, parse_page_ranges_old, if_neg h]
    rw [show collectPart total = collectPartOld total from funext (collectPart_eq_old total)]
    exact dedupGo_eq_old [] _

lemma mem_lockstep : ∀ (xs ys : List PageRef) (r : PageRef),
    r ∈ lockstep xs ys → r ∈ xs ∨ r ∈ ys
  | [], _, _ => fun h => Or.inr h
  | _ :: _, [], _ => fun h => Or.inl h
  | x :: xs, y :: ys, r => by
    intro h
    simp only [lockstep, List.mem_cons] at h
    rcases h with rfl | rfl | h
    · exact Or.inl (List.mem_cons_self _ _)
    · exact Or.inr (List.mem_cons_self _ _)
    · rcases mem_lockstep xs ys r h with h | h
      · exact Or.inl (List.mem_cons_of_mem _ h)
      · exact Or.inr (List.mem_cons_of_mem _ h)

lemma lockstep_nil_right (xs : List PageRef) : lockstep xs [] = xs := by
  cases xs <;> rfl

lemma alternateLoop_eq_lockstep (pa pb : Nat) :
    ∀ (n ia ib : Nat), pa - ia + (pb - ib) ≤ n →
      alternateLoop pa pb ia ib =
        lockstep ((List.range' ia (pa - ia)).map PageRef.A)
          ((List.range' ib (pb - ib)).map PageRef.B) := by
  intro n
  induction n with
  | zero =>
    intro ia ib hn
    rw [alternateLoop]
    have h1 : ¬ (ia < pa ∨ ib < pb) := by omega
    rw [dif_neg h1]
    have ha : pa - ia = 0 := by omega
    have hb : pb - ib = 0 := by omega
    rw [ha, hb]
    rfl
  | succ m ih =>
    intro ia ib hn
    rw [alternateLoop]
    by_cases h : ia < pa ∨ ib < pb
    · rw [dif_pos h]
      by_cases h1 : ia < pa <;> by_cases h2 : ib < pb
      · rw [if_pos h1, if_pos h2, if_pos h1, if_pos h2,
          ih (ia + 1) (ib + 1) (by omega),
          show pa - ia = (pa - (ia + 1)) + 1 from by omega, List.range'_succ,
          show pb - ib = (pb - (ib + 1)) + 1 from by omega, List.range'_succ]
        simp [lockstep]
      · rw [if_pos h1, if_neg h2, if_pos h1, if_neg h2,
          ih (ia + 1) ib (by omega),
          show pa - ia = (pa - (ia + 1)) + 1 from by omega, List.range'_succ,
          show pb - ib = 0 from by omega]
        simp [lockstep, lockstep_nil_right]
      · rw [if_neg h1, if_pos h2, if_neg h1, if_pos h2,
          ih ia (ib + 1) (by omega),
          show pb - ib = (pb - (ib + 1)) + 1 from by omega, List.range'_succ,
          show pa - ia = 0 from by omega]
        simp [lockstep]
      · omega
    · rw [dif_neg h]
      rw [show pa - ia = 0 from by omega, show pb - ib = 0 from by omega]
      rfl

/-- C2: mode "alternate" walks both documents in lockstep from the 1-based
    page start_from, at each step appending the next unconsumed page of A (if
    any remain) then of B (if any remain) until both are exhausted; no page
    numbered below start_from appears; and for A = 3 pages, B = 2 pages,
    start_from = 1 the order is [A1, B1, A2, B2, A3]. -/
theorem interleave_alternate_correct (pa pb s : Nat) (hs : 1 ≤ s) :
    doInterleave "alternate" pa pb s =
        some (lockstep ((List.range' (s - 1) (pa - (s - 1))).map PageRef.A)
          ((List.range' (s - 1) (pb - (s - 1))).map PageRef.B)) ∧
      (∀ l, doInterleave "alternate" pa pb s = some l →
        ∀ r ∈ l, s ≤ r.pageNumber) ∧
      doInterleave "alternate" 3 2 1 =
        some [PageRef.A 0, PageRef.B 0, PageRef.A 1, PageRef.B 1, PageRef.A 2] := by
  have key := alternateLoop_eq_lockstep pa pb (pa - (s - 1) + (pb - (s - 1)))
    (s - 1) (s - 1) le_rfl
  have hmode : doInterleave "alternate" pa pb s =
      some (alternateLoop pa pb (s - 1) (s - 1)) := by
    unfold doInterleave
    rw [if_pos rfl]
  refine ⟨by rw [hmode, key], ?_, ?_⟩
  · intro l hl r hr
    rw [hmode] at hl
    injection hl with hl
    subst hl
    rw [key] at hr
    rcases mem_lockstep _ _ _ hr with h | h <;>
      obtain ⟨i, hi, rfl⟩ := List.mem_map.mp h <;>
      rw [List.mem_range'_1] at hi <;>
      simp only [PageRef.pageNumber] <;> omega
  · have h32 := alternateLoop_eq_lockstep 3 2 5 0 0 (by omega)
    have hval : alternateLoop 3 2 0 0 =
        [PageRef.A 0, PageRef.B 0, PageRef.A 1, PageRef.B 1, PageRef.A 2] := by
      rw [h32]; decide
    unfold doInterleave
    rw [if_pos rfl, hval]

/-- Witness for C2 at A = 3 pages, B = 2 pages, start_from = 1. -/
theorem interleave_alternate_witness :
    doInterleave "alternate" 3 2 1 =
      some [PageRef.A 0, PageRef.B 0, PageRef.A 1, PageRef.B 1, PageRef.A 2] :=
  (interleave_alternate_correct 3 2 1 (by decide)).2.2

/-- C3: mode "a_odd_b_even" iterates i over the 1-based page numbers from
    start_from to max(len A, len B), appending A's page i when i ≤ len A and i
    is odd, then B's page i when i ≤ len B and i is even, parity taken on the
    1-based page number; for len A = len B = 4 and start_from = 1 the order is
    [A1, B2, A3, B4]. -/
theorem interleave_a_odd_b_even_correct (pa pb s : Nat) (_hs : 1 ≤ s) :
    doInterleave "a_odd_b_even" pa pb s =
        some ((List.range' s (max pa pb + 1 - s)).flatMap (fun i =>
          (if i ≤ pa ∧ Odd i then [PageRef.A (i - 1)] else []) ++
            (if i ≤ pb ∧ Even i then [PageRef.B (i - 1)] else []))) ∧
      doInterleave "a_odd_b_even" 4 4 1 =
        some [PageRef.A 0, PageRef.B 1, PageRef.A 2, PageRef.B 3] := by
  have hfun : (fun i => (if i ≤ pa ∧ is_odd i then [PageRef.A (i - 1)] else []) ++
        (if i ≤ pb ∧ ¬ is_odd i then [PageRef.B (i - 1)] else []))
      = (fun i => (if i ≤ pa ∧ Odd i then [PageRef.A (i - 1)] else []) ++
        (if i ≤ pb ∧ Even i then [PageRef.B (i - 1)] else [])) := by
    funext i
    by_cases hodd : i % 2 = 1
    · simp [is_odd, hodd, Nat.odd_iff, Nat.even_iff]
    · have he : i % 2 = 0 := by omega
      simp [is_odd, he, Nat.odd_iff, Nat.even_iff]
  constructor
  · unfold doInterleave
    rw [if_neg (by decide), if_pos rfl, hfun]
  · decide

/-- Witness for C3 at len A = len B = 4, start_from = 1. -/
theorem interleave_a_odd_b_even_witness :
    doInterleave "a_odd_b_even" 4 4 1 =
      some [PageRef.A 0, PageRef.B 1, PageRef.A 2, PageRef.B 3] :=
  (interleave_a_odd_b_even_correct 4 4 1 (by decide)).2

lemma foldl_writerAddPage : ∀ (l : List Page) (w : PdfFileM),
    l.foldl writerAddPage w = ⟨w.pages ++ l, w.info, w.xmp⟩
  | [], w => by simp
  | p :: rest, w => by
    rw [List.foldl_cons, foldl_writerAddPage rest]
    simp [writerAddPage]

/-- C4: sanitize keeps the identical ordered page sequence (each page handle,
    its rotation included) while the result carries no document-level
    metadata entry and no XMP metadata stream. -/
theorem sanitize_strips_metadata_keeps_pages (d : PdfFileM) :
    (sanitize_pdf_no_metadata d).pages = d.pages ∧
      (sanitize_pdf_no_metadata d).pages.map Page.rotation = d.pages.map Page.rotation ∧
      (sanitize_pdf_no_metadata d).info = [] ∧
      (sanitize_pdf_no_metadata d).xmp = none := by
  unfold sanitize_pdf_no_metadata writerClearXmp writerAddMetadata writerNew
  rw [foldl_writerAddPage]
  simp

/-- C8: sanitize is idempotent: re-sanitizing a sanitized document yields the
    same document, with the same page sequence and equally metadata-free. -/
theorem sanitize_idempotent (d : PdfFileM) :
    sanitize_pdf_no_metadata (sanitize_pdf_no_metadata d) = sanitize_pdf_no_metadata d := by
  unfold sanitize_pdf_no_metadata writerClearXmp writerAddMetadata writerNew
  rw [foldl_writerAddPage, foldl_writerAddPage]
  simp

lemma fsGet_del_other (fs : FS) (p q : String) (h : q ≠ p) :
    fsGet (fsDel fs p) q = fsGet fs q := by
  induction fs with
  | nil => rfl
  | cons e rest ih =>
    obtain ⟨r, d⟩ := e
    by_cases hr : r = p <;> by_cases hq : q = r <;>
      simp_all [fsDel, fsGet, List.filter_cons]

lemma fsGet_del_same (fs : FS) (p : String) : fsGet (fsDel fs p) p = none := by
  induction fs with
  | nil => rfl
  | cons e rest ih =>
    obtain ⟨r, d⟩ := e
    by_cases hr : r = p
    · subst hr
      simp_all [fsDel, fsGet, List.filter_cons]
    · have hq : ¬ p = r := fun hc => hr hc.symm
      simp_all [fsDel, fsGet, List.filter_cons]

lemma fsGet_set_same (fs : FS) (p : String) (d : FileData) :
    fsGet (fsSet fs p d) p = some d := by
  simp [fsSet, fsGet]

lemma fsGet_set_other (fs : FS) (p q : String) (d : FileData) (h : q ≠ p) :
    fsGet (fsSet fs p d) q = fsGet fs q := by
  simp only [fsSet, fsGet, if_neg h]
  exact fsGet_del_other fs p q h

/-- C5: whatever the sanitize pass does, the chosen output path ends up with
    a content-bearing PDF holding the assembled pages, and if the sanitize
    pass failed it is exactly the pre-sanitized file; sanitization failure
    never results in no output at all. -/
theorem sanitize_second_pass_preserves_output (fs : FS) (outP tmpP : String)
    (pg : List Page) (m : Bool) (oc : SanOutcome)
    (hne : outP ≠ tmpP) (hout : fsGet fs outP = some (.pdfFile pg m)) :
    (∃ m2, fsGet (sanitizeSecondPass fs outP tmpP oc) outP = some (.pdfFile pg m2)) ∧
      (oc ≠ SanOutcome.ok →
        fsGet (sanitizeSecondPass fs outP tmpP oc) outP = some (.pdfFile pg m)) := by
  have htmp : fsGet (os_replace fs outP tmpP) tmpP = some (.pdfFile pg m) := by
    simp only [os_replace, hout]
    exact fsGet_set_same _ _ _
  cases oc with
  | ok =>
    refine ⟨⟨false, ?_⟩, fun hc => absurd rfl hc⟩
    simp only [sanitizeSecondPass, sanitizeFileRun, htmp]
    rw [if_neg (show ¬ false = true from by decide)]
    rw [fsGet_del_other _ _ _ hne, fsGet_set_same]
  | failBeforeWrite =>
    have hres : fsGet (sanitizeSecondPass fs outP tmpP .failBeforeWrite) outP
        = some (.pdfFile pg m) := by
      simp only [sanitizeSecondPass, sanitizeFileRun]
      rw [htmp]
      rw [if_pos trivial]
      simp only [Option.isSome_some]
      rw [if_pos trivial]
      rw [os_replace]
      simp only [htmp]
      exact fsGet_set_same _ _ _
    exact ⟨⟨m, hres⟩, fun _ => hres⟩
  | failDuringWrite =>
    have hstep : fsGet (fsSet (os_replace fs outP tmpP) outP FileData.broken) tmpP
        = some (.pdfFile pg m) := by
      rw [fsGet_set_other _ _ _ _ (Ne.symm hne)]
      exact htmp
    have hres : fsGet (sanitizeSecondPass fs outP tmpP .failDuringWrite) outP
        = some (.pdfFile pg m) := by
      simp only [sanitizeSecondPass, sanitizeFileRun]
      rw [hstep]
      rw [if_pos trivial]
      simp only [Option.isSome_some]
      rw [if_pos trivial]
      rw [os_replace]
      simp only [hstep]
      exact fsGet_set_same _ _ _
    exact ⟨⟨m, hres⟩, fun _ => hres⟩

/-- Witness for C5: a concrete one-file system whose sanitize pass raises
    before writing; the merged file survives at the output path. -/
theorem sanitize_second_pass_witness :
    (∃ m2, fsGet (sanitizeSecondPass [("out.pdf", FileData.pdfFile [⟨1, 0⟩] true)]
          "out.pdf" "out.__tmp__.pdf" SanOutcome.failBeforeWrite) "out.pdf"
        = some (FileData.pdfFile [⟨1, 0⟩] m2)) ∧
      (SanOutcome.failBeforeWrite ≠ SanOutcome.ok →
        fsGet (sanitizeSecondPass [("out.pdf", FileData.pdfFile [⟨1, 0⟩] true)]
            "out.pdf" "out.__tmp__.pdf" SanOutcome.failBeforeWrite) "out.pdf"
          = some (FileData.pdfFile [⟨1, 0⟩] true)) :=
  sanitize_second_pass_preserves_output _ _ _ _ _ _ (by decide) (by decide)

/-- Counterexample to C6: converting one presentation whose sanitize pass
    fails leaves doc.__tmp__.pdf on disk after the operation finishes with an
    error (the outer except handler performs no cleanup). -/
theorem convert_temp_file_left_on_failure :
    fsGet (convertPptItem [] [⟨1, 0⟩] "doc.__tmp__.pdf" "doc.pdf" ConvOutcome.saniFail).1
        "doc.__tmp__.pdf" = some (FileData.pdfFile [⟨1, 0⟩] true) ∧
      (convertPptItem [] [⟨1, 0⟩] "doc.__tmp__.pdf" "doc.pdf" ConvOutcome.saniFail).2
        = true := by
  constructor
  · decide
  · decide

lemma convert_ppt_cleanup_on_success (fs : FS) (pg : List Page)
    (tmpP finalP : String) (hne : tmpP ≠ finalP) :
    fsGet (convertPptItem fs pg tmpP finalP ConvOutcome.ok).1 tmpP = none ∧
      fsGet (convertPptItem fs pg tmpP finalP ConvOutcome.ok).1 finalP =
        some (FileData.pdfFile pg false) ∧
      (convertPptItem fs pg tmpP finalP ConvOutcome.ok).2 = false := by
  have h1 : fsGet (fsSet fs tmpP (FileData.pdfFile pg true)) tmpP
      = some (FileData.pdfFile pg true) := fsGet_set_same _ _ _
  refine ⟨?_, ?_, rfl⟩
  · simp only [convertPptItem, sanitizeFileRun, h1]
    exact fsGet_del_same _ _
  · simp only [convertPptItem, sanitizeFileRun, h1]
    rw [fsGet_del_other _ _ _ (fun hc => hne hc.symm), fsGet_set_same]

lemma convert_excel_cleanup_on_success (fs : FS) (pg : List Page)
    (rot : List Page → List Page) (tmpP midP finalP : String) (fl : Bool)
    (h1 : tmpP ≠ finalP) (h2 : midP ≠ finalP) :
    fsGet (convertExcelItem fs pg rot tmpP midP finalP fl ConvOutcome.ok).1 tmpP = none ∧
      fsGet (convertExcelItem fs pg rot tmpP midP finalP fl ConvOutcome.ok).1 midP = none ∧
      fsGet (convertExcelItem fs pg rot tmpP midP finalP fl ConvOutcome.ok).1 finalP
        = some (FileData.pdfFile (cond fl (rot pg) pg) false) := by
  cases fl with
  | true =>
    have hmid : fsGet (fsSet (fsSet fs tmpP (FileData.pdfFile pg true)) midP
        (FileData.pdfFile (rot pg) true)) midP = some (FileData.pdfFile (rot pg) true) :=
      fsGet_set_same _ _ _
    refine ⟨?_, ?_, ?_⟩
    · simp only [convertExcelItem, sanitizeFileRun, hmid]
      by_cases htm : tmpP = midP
      · rw [htm]
        exact fsGet_del_same _ _
      · rw [fsGet_del_other _ _ _ htm]
        exact fsGet_del_same _ _
    · simp only [convertExcelItem, sanitizeFileRun, hmid]
      exact fsGet_del_same _ _
    · simp only [convertExcelItem, sanitizeFileRun, hmid, cond]
      rw [fsGet_del_other _ _ _ (Ne.symm h2), fsGet_del_other _ _ _ (Ne.symm h1),
        fsGet_set_same]
  | false =>
    have htmp : fsGet (fsSet fs tmpP (FileData.pdfFile pg true)) tmpP
        = some (FileData.pdfFile pg true) := fsGet_set_same _ _ _
    refine ⟨?_, ?_, ?_⟩
    · simp only [convertExcelItem, sanitizeFileRun, htmp]
      by_cases htm : tmpP = midP
      · rw [htm]
        exact fsGet_del_same _ _
      · rw [fsGet_del_other _ _ _ htm]
        exact fsGet_del_same _ _
    · simp only [convertExcelItem, sanitizeFileRun, htmp]
      exact fsGet_del_same _ _
    · simp only [convertExcelItem, sanitizeFileRun, htmp, cond]
      rw [fsGet_del_other _ _ _ (Ne.symm h2), fsGet_del_other _ _ _ (Ne.symm h1),
        fsGet_set_same]

lemma sanitize_second_pass_removes_tmp (fs : FS) (outP tmpP : String)
    (pg : List Page) (m : Bool) (oc : SanOutcome)
    (hne : outP ≠ tmpP) (hout : fsGet fs outP = some (.pdfFile pg m)) :
    fsGet (sanitizeSecondPass fs outP tmpP oc) tmpP = none := by
  have htmp : fsGet (os_replace fs outP tmpP) tmpP = some (.pdfFile pg m) := by
    simp only [os_replace, hout]
    exact fsGet_set_same _ _ _
  cases oc with
  | ok =>
    simp only [sanitizeSecondPass, sanitizeFileRun, htmp]
    rw [if_neg (show ¬ false = true from by decide)]
    exact fsGet_del_same _ _
  | failBeforeWrite =>
    simp only [sanitizeSecondPass, sanitizeFileRun]
    rw [htmp]
    rw [if_pos trivial]
    simp only [Option.isSome_some]
    rw [if_pos trivial]
    rw [os_replace]
    simp only [htmp]
    rw [fsGet_set_other _ _ _ _ (Ne.symm hne)]
    exact fsGet_del_same _ _
  | failDuringWrite =>
    have hstep : fsGet (fsSet (os_replace fs outP tmpP) outP FileData.broken) tmpP
        = some (.pdfFile pg m) := by
      rw [fsGet_set_other _ _ _ _ (Ne.symm hne)]
      exact htmp
    simp only [sanitizeSecondPass, sanitizeFileRun]
    rw [hstep]
    rw [if_pos trivial]
    simp only [Option.isSome_some]
    rw [if_pos trivial]
    rw [os_replace]
    simp only [hstep]
    rw [fsGet_set_other _ _ _ _ (Ne.symm hne)]
    exact fsGet_del_same _ _

/-- C6 amended: the assembly operations' sanitize second pass never leaves
    its working .__tmp__.pdf on disk, on success and on every failure path
    (it is removed or renamed back onto the output); a conversion operation
    that succeeds removes its temporary files (.__tmp__.pdf, and the Excel
    .__mid__.pdf); but a conversion that fails after its temporary file was
    written leaves it on disk (see the counterexample). -/
theorem temp_file_cleanup :
    (∀ (fs : FS) (outP tmpP : String) (pg : List Page) (m : Bool) (oc : SanOutcome),
        outP ≠ tmpP → fsGet fs outP = some (FileData.pdfFile pg m) →
          fsGet (sanitizeSecondPass fs outP tmpP oc) tmpP = none) ∧
      (∀ (fs : FS) (pg : List Page) (tmpP finalP : String), tmpP ≠ finalP →
        fsGet (convertPptItem fs pg tmpP finalP ConvOutcome.ok).1 tmpP = none ∧
          fsGet (convertPptItem fs pg tmpP finalP ConvOutcome.ok).1 finalP
            = some (FileData.pdfFile pg false) ∧
          (convertPptItem fs pg tmpP finalP ConvOutcome.ok).2 = false) ∧
      (∀ (fs : FS) (pg : List Page) (rot : List Page → List Page)
          (tmpP midP finalP : String) (fl : Bool), tmpP ≠ finalP → midP ≠ finalP →
        fsGet (convertExcelItem fs pg rot tmpP midP finalP fl ConvOutcome.ok).1 tmpP = none ∧
          fsGet (convertExcelItem fs pg rot tmpP midP finalP fl ConvOutcome.ok).1 midP = none ∧
          fsGet (convertExcelItem fs pg rot tmpP midP finalP fl ConvOutcome.ok).1 finalP
            = some (FileData.pdfFile (cond fl (rot pg) pg) false)) :=
  ⟨fun _ _ _ _ _ _ hne hout => sanitize_second_pass_removes_tmp _ _ _ _ _ _ hne hout,
    fun _ _ _ _ hne => convert_ppt_cleanup_on_success _ _ _ _ hne,
    fun _ _ _ _ _ _ _ h1 h2 => convert_excel_cleanup_on_success _ _ _ _ _ _ _ h1 h2⟩

/-- Witness for the amended C6 at concrete inputs: an assembly second pass
    with a failing sanitize leaves no working file, and concrete successful
    ppt and excel conversions leave no temporary files. -/
theorem temp_file_cleanup_witness :
    fsGet (sanitizeSecondPass [("o.pdf", FileData.pdfFile [⟨1, 0⟩] true)]
        "o.pdf" "o.__tmp__.pdf" SanOutcome.failBeforeWrite) "o.__tmp__.pdf" = none ∧
      fsGet (convertPptItem [] [⟨1, 0⟩] "a.__tmp__.pdf" "a.pdf" ConvOutcome.ok).1
        "a.__tmp__.pdf" = none ∧
      fsGet (convertExcelItem [] [⟨1, 0⟩] id "b.__tmp__.pdf" "b.__mid__.pdf" "b.pdf" true
        ConvOutcome.ok).1 "b.__mid__.pdf" = none :=
  ⟨temp_file_cleanup.1 [("o.pdf", FileData.pdfFile [⟨1, 0⟩] true)] "o.pdf" "o.__tmp__.pdf"
      [⟨1, 0⟩] true SanOutcome.failBeforeWrite (by decide) (by decide),
    (temp_file_cleanup.2.1 [] [⟨1, 0⟩] "a.__tmp__.pdf" "a.pdf" (by decide)).1,
    (temp_file_cleanup.2.2 [] [⟨1, 0⟩] id "b.__tmp__.pdf" "b.__mid__.pdf" "b.pdf" true
      (by decide) (by decide)).2.1⟩

/-- Counterexample to C7: deleting "1-3" from a 3-page document resolves to a
    selection that leaves zero pages to write, yet the dialog does not abort:
    it proceeds and writes a zero-page PDF. -/
theorem delete_all_writes_zero_page_pdf :
    deleteKept 3 "1-3" = some [] ∧ deleteKept 3 "1-3" ≠ none := by
  constructor
  · decide
  · decide

/-- C7 amended: extract and delete warn and abort before any write exactly
    when the parsed range expression resolves to an empty index set, and
    extract never proceeds with an empty page list; delete may still write a
    zero-page file when the selection covers every page (see the
    counterexample). -/
theorem empty_selection_aborts (total : Nat) (ranges : String) :
    (parse_page_ranges ranges total = [] →
      extractSelection total ranges = none ∧ deleteKept total ranges = none) ∧
      (∀ l, extractSelection total ranges = some l → l ≠ []) := by
  constructor
  · intro h
    constructor
    · simp [extractSelection, h]
    · simp [deleteKept, h]
  · intro l hl
    unfold extractSelection at hl
    by_cases h : parse_page_ranges ranges total = []
    · rw [if_pos h] at hl
      exact absurd hl (by simp)
    · rw [if_neg h] at hl
      injection hl with hl
      rw [← hl]
      exact h

/-- Witness for the amended C7: the empty expression aborts both dialogs, and
    a nonempty extract selection is nonempty. -/
theorem empty_selection_aborts_witness :
    (extractSelection 5 "" = none ∧ deleteKept 5 "" = none) ∧
      ([0] : List Int) ≠ [] :=
  ⟨(empty_selection_aborts 5 "").1 (by decide),
    (empty_selection_aborts 5 "1").2 [0] (by decide)⟩

end PDFMixer
